import Mathlib

/-!
Verification of the platilka request-orchestration service.

The Python sources are embedded shallowly: text handled by the string
heuristics is modelled as `List Char`, inert record fields as `String`,
Python `float` values as `Rat` (IEEE rounding and NaN are irrelevant to the
properties verified here, which only compare and copy scores), Python
`date` values as `Int` day ordinals, raising functions as `Except`, and the
external LLM / browser-agent / `json.loads` calls as explicit parameters
supplying their observable output.  In-place mutation of a caller's list is
modelled by returning the new list state alongside the result.
-/

namespace Platilka

/-! ## Python string helpers

`isPySpace` models the ASCII whitespace class matched by Python's `\s` and
by `str.strip()` with no arguments. -/

def pyWhitespace : List Char := [' ', '\t', '\n', '\r', '\x0b', '\x0c']

def isPySpace (c : Char) : Bool := pyWhitespace.contains c

/-- Python `str.lstrip` restricted to a character predicate. -/
def lstripBy (p : Char → Bool) (s : List Char) : List Char := s.dropWhile p

/-- Python `str.rstrip` restricted to a character predicate. -/
def rstripBy (p : Char → Bool) (s : List Char) : List Char :=
  (s.reverse.dropWhile p).reverse

/-- Python `str.strip(chars)`: remove leading and trailing characters satisfying `p`. -/
def stripBy (p : Char → Bool) (s : List Char) : List Char :=
  rstripBy p (lstripBy p s)

/-- Python `str.strip()` with no arguments: strip whitespace. -/
def pyStrip (s : List Char) : List Char := stripBy isPySpace s

/-- Does `pat` occur as a prefix of `s`?  (`str.startswith`). -/
def startsWith : List Char → List Char → Bool
  | [], _ => true
  | _ :: _, [] => false
  | p :: ps, c :: cs => if p = c then startsWith ps cs else false

/-- Index of the first occurrence of the pattern `pat` in `s`, if any
(`str.find` / the anchor-free search a regex engine performs). -/
def findSub (pat : List Char) : List Char → Option Nat
  | [] => if startsWith pat [] then some 0 else none
  | c :: cs =>
    if startsWith pat (c :: cs) then some 0
    else (findSub pat cs).map (· + 1)

/-- Index of the first occurrence of the character `t` in `s` (`str.find`). -/
def findIdxChar (t : Char) : List Char → Option Nat
  | [] => none
  | c :: cs => if c = t then some 0 else (findIdxChar t cs).map (· + 1)

/-- Index of the last occurrence of the character `t` in `s` (`str.rfind`). -/
def lastIdxChar (t : Char) : List Char → Option Nat
  | [] => none
  | c :: cs =>
    match lastIdxChar t cs with
    | some j => some (j + 1)
    | none => if c = t then some 0 else none

/-- The pattern `pat` occurs in `s` at position `i`. -/
def occursAt (pat s : List Char) (i : Nat) : Prop :=
  startsWith pat (s.drop i) = true

instance (pat s : List Char) (i : Nat) : Decidable (occursAt pat s i) := by
  unfold occursAt; infer_instance

/-! ## `ProductService._extract_json_from_text`

The Python source applies `re.findall` first with the fenced-block pattern
followed by a lazy capture and then, failing that, with the greedy pattern
matching from a left brace to a right brace; `matches[0]` of the first
regex is the contents of the first fenced block up to the first closing
fence, and `matches[0]` of the second regex is the slice of the text from
the first left brace to the last right brace (the greedy star). -/

def fenceOpen : List Char := "```json".data

def fenceClose : List Char := "```".data

def lbrace : Char := Char.ofNat 123

def rbrace : Char := Char.ofNat 125

/-- The second `re.findall` in `_extract_json_from_text`: the slice from the
first left brace to the last right brace, when the latter follows the former. -/
def braceFallback (text : List Char) : Option (List Char) :=
  match findIdxChar lbrace text, lastIdxChar rbrace text with
  | some i, some j =>
    if i < j then some (pyStrip ((text.drop i).take (j + 1 - i))) else none
  | _, _ => none

/-- Embedding of `ProductService._extract_json_from_text`. -/
def extract_json_from_text (text : List Char) : Option (List Char) :=
  match findSub fenceOpen text with
  | some i =>
    match findSub fenceClose (text.drop (i + fenceOpen.length)) with
    | some j => some (pyStrip ((text.drop (i + fenceOpen.length)).take j))
    | none => braceFallback text
  | none => braceFallback text

/-- The fenced-block regex has a match: an opening fence occurs and a closing
fence occurs past it. -/
def hasFencedBlock (text : List Char) : Prop :=
  ∃ i j, occursAt fenceOpen text i ∧ occursAt fenceClose text j ∧
    i + fenceOpen.length ≤ j

/-- The brace regex has a match: some left brace is followed by a right brace. -/
def hasBracePair (text : List Char) : Prop :=
  ∃ i j : Nat, i < j ∧ text[i]? = some lbrace ∧ text[j]? = some rbrace

/-! ## Association stores

The API module keeps search tasks and booking confirmations in in-process
dictionaries; they are modelled as association lists with unique keys. -/

def assocLookup {β : Type} : List (String × β) → String → Option β
  | [], _ => none
  | (k, v) :: rest, key => if k = key then some v else assocLookup rest key

def assocUpdate {β : Type} (store : List (String × β)) (key : String) (f : β → β) :
    List (String × β) :=
  store.map (fun kv => if kv.1 = key then (kv.1, f kv.2) else kv)

/-! ## Product data model (`platilka/models/product.py`) -/

structure PriceRange where
  min_price : Option Rat
  max_price : Option Rat
  currency : String
deriving DecidableEq

inductive ProductCategory where
  | electronics | clothing | home | beauty | sports | books | toys | food | other
deriving DecidableEq

structure ProductRequest where
  query : String
  city : String
  category : Option ProductCategory
  price_range : Option PriceRange
  brand : Option String
  features : Option (List String)
  exclude_features : Option (List String)
  marketplaces : Option (List String)
  max_results : Int
deriving DecidableEq

structure Product where
  name : String
  description : Option String
  price : Rat
  currency : String
  image_url : Option String
  product_url : String
  marketplace : String
  rating : Option Rat
  reviews_count : Option Int
  availability : Option String
deriving DecidableEq

structure ProductRecommendation where
  product : Product
  relevance_score : Rat
  recommendation_reason : String
deriving DecidableEq

structure ProductRecommendationsResponse where
  recommendations : List ProductRecommendation
  query_details : ProductRequest
  additional_questions : Option (List String)
deriving DecidableEq

/-! ## JSON values

`json.loads` itself is an external library call; it is passed in as a
parameter producing a `Json` value (or an error for an exception).  Only the
dictionary operations the service performs on the decoded value are
modelled here. -/

inductive Json where
  | null
  | bool (b : Bool)
  | num (q : Rat)
  | str (s : String)
  | arr (items : List Json)
  | obj (fields : List (String × Json))

/-- Python `float(x)` on a decoded JSON value.  Numbers and booleans convert;
other values raise.  (Coercion of numeric strings is not exercised by any
property below and is modelled as a failure.) -/
def floatOfJson : Json → Except String Rat
  | .num q => .ok q
  | .bool b => .ok (if b then 1 else 0)
  | _ => .error "could not convert value to float"

def keyScore : String := "relevance_score"

def keyReason : String := "recommendation_reason"

def msgNoEval : String := "Не удалось оценить релевантность товара"

def msgEvalErrPre : String := "Ошибка при оценке: "

def msgNotDict : String := "response is not a JSON object"

/-! ## `ProductService` operations

The LLM is an external non-deterministic service: each operation takes the
LLM response content as an explicit argument.  Exactly one response argument
is consumed per call — the source performs a single `ainvoke` with no retry. -/

def dquote : Char := Char.ofNat 34

def squote : Char := Char.ofNat 39

/-- Embedding of `ProductService.generate_search_query`: the LLM response content is
cleaned with `.strip().strip(dquote).strip(squote).strip()` and returned. -/
def generate_search_query (_request : ProductRequest) (respContent : List Char) : List Char :=
  pyStrip (stripBy (· == squote) (stripBy (· == dquote) (pyStrip respContent)))

/-- Embedding of `ProductService.evaluate_product_relevance` after the single LLM call:
extract JSON from the response, decode it, and read the score and reason
with defaults; any failure yields a zero score and an error string.  The
second component is the raw value Python would place in the tuple (a string
in every failure branch, the unconverted `recommendation_reason` value on
success). -/
def evaluate_product_relevance (loads : List Char → Except String Json)
    (_request : ProductRequest) (_product : Product) (respContent : List Char) :
    Rat × Json :=
  match extract_json_from_text respContent with
  | none => (0, Json.str msgNoEval)
  | some js =>
    match loads js with
    | .error e => (0, Json.str (msgEvalErrPre ++ e))
    | .ok (Json.obj fields) =>
      match floatOfJson ((assocLookup fields keyScore).getD (Json.num 0)) with
      | .error e => (0, Json.str (msgEvalErrPre ++ e))
      | .ok score => (score, (assocLookup fields keyReason).getD (Json.str ""))
    | .ok _ => (0, Json.str (msgEvalErrPre ++ msgNotDict))

/-- An evaluated product: the `(product, score, reason)` triple. -/
abbrev EvalTriple := Product × Rat × String

/-- The descending-score order used by `_fallback_recommendations`:
`a` may precede `b` when the score of `a` is at least the score of `b`. -/
def scoreGe (a b : EvalTriple) : Prop := b.2.1 ≤ a.2.1

instance : DecidableRel scoreGe :=
  fun a b => inferInstanceAs (Decidable (b.2.1 ≤ a.2.1))

instance : IsTotal EvalTriple scoreGe := ⟨fun a b => le_total b.2.1 a.2.1⟩

instance : IsTrans EvalTriple scoreGe := ⟨fun _ _ _ h1 h2 => le_trans h2 h1⟩

def mkRecommendation (t : EvalTriple) : ProductRecommendation :=
  { product := t.1, relevance_score := t.2.1, recommendation_reason := t.2.2 }

/-- Python list slicing `l[:n]` for a possibly negative `n`: a prefix of
length `n` when `n ≥ 0`, and all but the last `|n|` elements (clamped at
the empty list) when `n < 0`.  The `max_results` field is an unconstrained
`int`, so the negative case is reachable. -/
def pySliceTo {α : Type} (n : Int) (l : List α) : List α :=
  if n < 0 then l.take ((l.length + n : Int)).toNat else l.take n.toNat

/-- Embedding of `ProductService._fallback_recommendations`.  The Python method sorts the
caller's `evaluated_products` list in place (`list.sort` is stable, modelled
by insertion sort) before slicing; the second component of the result is the
list object's state after the call. -/
def fallback_recommendations (request : ProductRequest)
    (evaluated_products : List EvalTriple) :
    ProductRecommendationsResponse × List EvalTriple :=
  let sortedProducts := List.insertionSort scoreGe evaluated_products
  let top_products := pySliceTo request.max_results sortedProducts
  ({ recommendations := top_products.map mkRecommendation,
     query_details := request,
     additional_questions := some [] }, sortedProducts)

/-- The decoded payload of a successful ranking response: `json.loads` plus
the per-entry `Product(**...)` conversions, abstracted as a parameter; a
`none` result stands for a decoding or conversion exception. -/
structure RecPayload where
  recommendations : List EvalTriple
  additional_questions : List String
deriving DecidableEq

/-- Embedding of `ProductService.generate_recommendations` after the single LLM call.
The second component is the state of the caller's `evaluated_products` list
after the call (mutated only on the fallback path). -/
def generate_recommendations (parse : List Char → Option RecPayload)
    (request : ProductRequest) (evaluated_products : List EvalTriple)
    (respContent : List Char) : ProductRecommendationsResponse × List EvalTriple :=
  match extract_json_from_text respContent with
  | none => fallback_recommendations request evaluated_products
  | some js =>
    match parse js with
    | none => fallback_recommendations request evaluated_products
    | some payload =>
      ({ recommendations := payload.recommendations.map mkRecommendation,
         query_details := request,
         additional_questions := some payload.additional_questions },
       evaluated_products)

/-! ## `BrowserService.extract_multiple_products`

One extraction task is created per URL and the tasks are gathered in order;
a task whose extraction raised is mapped to `none` by
`extract_single_product` and filtered out afterwards.  The per-URL
extraction (an external browser-agent run) is the parameter `extractOne`,
with `none` standing for a swallowed exception. -/

def extract_multiple_products (extractOne : String → Option Product)
    (urls : List String) : List Product :=
  let results := urls.map extractOne
  results.filterMap id

/-! ## Booking data model (`platilka/models.py`) -/

inductive PaymentMethod where
  | card | cash | bank_transfer
deriving DecidableEq

structure GuestInfo where
  first_name : String
  last_name : String
  middle_name : Option String
  phone : String
  email : String
deriving DecidableEq

structure PaymentInfo where
  card_number : Option String
  card_holder : Option String
  expiry_month : Option Int
  expiry_year : Option Int
  cvv : Option String
  method : PaymentMethod
deriving DecidableEq

/-- Raw field values of a `BookingRequest`; dates are day ordinals. -/
structure BookingRequest where
  city : String
  check_in : Int
  check_out : Int
  guests_count : Int
  min_price : Option Int
  max_price : Option Int
  apartment_type : Option String
  amenities : Option (List String)
  district : Option String
  guest_info : GuestInfo
  payment_info : PaymentInfo
deriving DecidableEq

def msgDatesInvalid : String := "Дата выезда должна быть позже даты заезда"

def msgGuestsInvalid : String := "guests_count must be between 1 and 10"

def msgPriceNegative : String := "price must be non-negative"

def msgMaxBelowMin : String := "Максимальная цена должна быть больше минимальной"

def optIntNeg (x : Option Int) : Bool :=
  match x with
  | some v => decide (v < 0)
  | none => false

def maxBelowMin (mn mx : Option Int) : Bool :=
  match mx, mn with
  | some vmax, some vmin => decide (vmax ≤ vmin)
  | _, _ => false

/-- Pydantic validation of a `BookingRequest`: the field constraints and the
two `@validator` methods, applied in field declaration order. -/
def mkBookingRequest (r : BookingRequest) : Except String BookingRequest :=
  if r.check_out ≤ r.check_in then .error msgDatesInvalid
  else if r.guests_count < 1 then .error msgGuestsInvalid
  else if 10 < r.guests_count then .error msgGuestsInvalid
  else if optIntNeg r.min_price then .error msgPriceNegative
  else if optIntNeg r.max_price then .error msgPriceNegative
  else if maxBelowMin r.min_price r.max_price then .error msgMaxBelowMin
  else .ok r

structure HotelAmenity where
  name : String
  available : Bool
deriving DecidableEq

structure HotelInfo where
  id : String
  title : String
  description : Option String
  price_per_night : Int
  total_price : Int
  rating : Option Rat
  reviews_count : Option Int
  address : String
  district : Option String
  rooms_count : Option Int
  guests_capacity : Int
  amenities : List HotelAmenity
  free_cancellation : Bool
  cancellation_policy : Option String
  photos : List String
  url : String
deriving DecidableEq

structure HotelRecommendations where
  hotels : List HotelInfo
  total_found : Nat
  search_params : BookingRequest
deriving DecidableEq

structure BookingResult where
  success : Bool
  booking_id : Option String
  confirmation_number : Option String
  total_amount : Int
  message : String
  booking_url : Option String
deriving DecidableEq

structure BookingConfirmation where
  hotel : HotelInfo
  booking_request : BookingRequest
  confirmed : Bool
deriving DecidableEq

structure SearchStatus where
  status : String
  message : String
  progress : Option Int
deriving DecidableEq

def searchStatusAllowed (s : String) : Bool :=
  s == "searching" || s == "completed" || s == "error"

def progressOutOfRange (p : Option Int) : Bool :=
  match p with
  | some v => decide (v < 0) || decide (100 < v)
  | none => false

/-- Pydantic validation of a `SearchStatus` response: the `Literal` status
field and the `ge`/`le` bounds on `progress`. -/
def mkSearchStatus (status message : String) (progress : Option Int) :
    Except String SearchStatus :=
  if searchStatusAllowed status then
    if progressOutOfRange progress then .error "progress must be between 0 and 100"
    else .ok { status := status, message := message, progress := progress }
  else .error "status must be one of: searching, completed, error"

/-! ## `SutochnoService` (`platilka/sutochno_service.py`)

The browser agent is external; its run result is the opaque `AgentResult`
input (wrapped in `Except` where the source guards the run with
`try`/`except`). -/

structure AgentResult where
  raw : String
deriving DecidableEq

def msgParseNotImplemented : String :=
  "Парсинг результата бронирования пока не реализован"

def msgBookingErrPre : String := "Ошибка при бронировании: "

/-- Embedding of `SutochnoService._parse_search_results`: the parsing logic is a TODO
stub; the `hotels` accumulator is returned untouched. -/
def parse_search_results (_agent_result : AgentResult)
    (_booking_request : BookingRequest) : List HotelInfo := []

/-- Embedding of `SutochnoService._parse_booking_result`: a TODO stub returning a failed
`BookingResult` carrying the hotel's total price. -/
def parse_booking_result (_agent_result : AgentResult) (hotel : HotelInfo)
    (_booking_request : BookingRequest) : BookingResult :=
  { success := false
    booking_id := none
    confirmation_number := none
    total_amount := hotel.total_price
    message := msgParseNotImplemented
    booking_url := none }

/-- Embedding of `SutochnoService.search_hotels`: run the agent (external; a raised
exception is re-raised by the `except` clause, hence propagated) and wrap
the parsed hotels. -/
def search_hotels (agentRun : Except String AgentResult) (r : BookingRequest) :
    Except String HotelRecommendations :=
  match agentRun with
  | .error e => .error e
  | .ok ar =>
    .ok { hotels := parse_search_results ar r
          total_found := (parse_search_results ar r).length
          search_params := r }

/-- Embedding of `SutochnoService.book_hotel`: run the agent and parse the booking result;
an exception from the run is converted to a failed `BookingResult`. -/
def book_hotel (agentRun : Except String AgentResult) (hotel : HotelInfo)
    (r : BookingRequest) : BookingResult :=
  match agentRun with
  | .error e =>
    { success := false
      booking_id := none
      confirmation_number := none
      total_amount := hotel.total_price
      message := msgBookingErrPre ++ e
      booking_url := none }
  | .ok ar => parse_booking_result ar hotel r

/-! ## API endpoints (`platilka/api.py`)

The two in-process dictionaries are passed and returned explicitly; an HTTP
error response is `Except.error (statusCode, detail)`.  Clock readings and
the generated task id are inputs. -/

structure TaskData where
  status : String
  progress : Int
  message : String
  booking_request : BookingRequest
  result : Option HotelRecommendations
  error : Option String
  created_at : Int
deriving DecidableEq

abbrev TaskStore := List (String × TaskData)

abbrev ConfirmationStore := List (String × BookingConfirmation)

def msgTaskNotFound : String := "Задача поиска не найдена"

def msgConfNotFound : String := "Подтверждение бронирования не найдено"

def initTask (r : BookingRequest) (now : Int) : TaskData :=
  { status := "searching"
    progress := 0
    message := "Начинаем поиск отелей..."
    booking_request := r
    result := none
    error := none
    created_at := now }

/-- Endpoint `start_search`: the two explicit date checks, then registration of the
new background task. -/
def start_search (today now : Int) (taskId : String) (store : TaskStore)
    (r : BookingRequest) : Except (Nat × String) (TaskStore × String) :=
  if r.check_in ≤ today then
    .error (400, "Дата заезда должна быть не раньше завтрашнего дня")
  else if r.check_out ≤ r.check_in then
    .error (400, msgDatesInvalid)
  else
    .ok (store ++ [(taskId, initTask r now)], taskId)

/-- Endpoint `get_search_status`: look the task up and validate the stored fields
into a `SearchStatus` response; a validation failure surfaces as an HTTP
500 through the generic exception handler. -/
def get_search_status (store : TaskStore) (taskId : String) :
    Except (Nat × String) SearchStatus :=
  match assocLookup store taskId with
  | none => .error (404, msgTaskNotFound)
  | some t =>
    match mkSearchStatus t.status t.message (some t.progress) with
    | .error e => .error (500, e)
    | .ok s => .ok s

/-- Endpoint `cancel_search`: mark the stored task as cancelled, leaving it in the
store. -/
def cancel_search (store : TaskStore) (taskId : String) :
    Except (Nat × String) (TaskStore × String) :=
  match assocLookup store taskId with
  | none => .error (404, msgTaskNotFound)
  | some _ =>
    .ok (assocUpdate store taskId
          (fun t => { t with status := "cancelled"
                             message := "Поиск отменен пользователем" }),
        "Поиск отменен")

/-- Endpoint `execute_booking`: look the confirmation up, run the booking (the
service call is the parameter `book`; an exception surfaces as HTTP 500),
and on return mark the confirmation as confirmed. -/
def execute_booking (book : HotelInfo → BookingRequest → Except String BookingResult)
    (store : ConfirmationStore) (cid : String) :
    Except (Nat × String) (ConfirmationStore × BookingResult) :=
  match assocLookup store cid with
  | none => .error (404, msgConfNotFound)
  | some conf =>
    match book conf.hotel conf.booking_request with
    | .error e => .error (500, e)
    | .ok result =>
      .ok (assocUpdate store cid (fun c => { c with confirmed := true }), result)

/-! ## Concrete sample data used by the witness theorems -/

def sampleFencedText : List Char := "```json 5```".data

def sampleNoJsonText : List Char := "no json here".data

def sampleProduct : Product :=
  { name := "Товар А", description := none, price := 100, currency := "RUB",
    image_url := none, product_url := "https://ozon.ru/p/1", marketplace := "Ozon",
    rating := none, reviews_count := none, availability := none }

def sampleProductB : Product :=
  { sampleProduct with name := "Товар Б", product_url := "https://ozon.ru/p/2", price := 50 }

def sampleRequest : ProductRequest :=
  { query := "наушники", city := "Москва", category := none, price_range := none,
    brand := none, features := none, exclude_features := none, marketplaces := none,
    max_results := 1 }

def sampleEvaluated : List EvalTriple :=
  [(sampleProduct, 3, "подходит"), (sampleProductB, 7, "лучше")]

def sampleGuest : GuestInfo :=
  { first_name := "Иван", last_name := "Иванов", middle_name := none,
    phone := "+70000000000", email := "ivan@example.com" }

def samplePayment : PaymentInfo :=
  { card_number := none, card_holder := none, expiry_month := none,
    expiry_year := none, cvv := none, method := PaymentMethod.card }

def sampleBooking : BookingRequest :=
  { city := "москва", check_in := 20300, check_out := 20303, guests_count := 2,
    min_price := none, max_price := none, apartment_type := none, amenities := none,
    district := none, guest_info := sampleGuest, payment_info := samplePayment }

def sampleBookingBad : BookingRequest := { sampleBooking with check_out := 20300 }

def sampleHotel : HotelInfo :=
  { id := "h1", title := "Уютная квартира", description := none,
    price_per_night := 3000, total_price := 9000, rating := none,
    reviews_count := none, address := "ул. Пушкина, 10", district := none,
    rooms_count := none, guests_capacity := 2, amenities := [],
    free_cancellation := true, cancellation_policy := none, photos := [],
    url := "https://sutochno.ru/front/searchapp/detail/1" }

def sampleAgentResult : AgentResult := { raw := "agent output" }

def sampleConfirmation : BookingConfirmation :=
  { hotel := sampleHotel, booking_request := sampleBooking, confirmed := false }

def sampleConfStore : ConfirmationStore := [("c1", sampleConfirmation)]

def sampleFailedResult : BookingResult :=
  { success := false, booking_id := none, confirmation_number := none,
    total_amount := 9000, message := "агент не завершил бронирование",
    booking_url := none }

def sampleTaskStore : TaskStore := [("t1", initTask sampleBooking 0)]

def sampleUrls : List String := ["https://ozon.ru/p/1", "https://bad.example/x"]

def sampleExtractOne (url : String) : Option Product :=
  if url = "https://ozon.ru/p/1" then some sampleProduct else none

def sampleQueryResp : List Char := "  \"query text\"  ".data

def sampleRequestNeg : ProductRequest := { sampleRequest with max_results := -1 }

/-! ## Lemmas: substring search -/

theorem occursAt_cons_succ {pat : List Char} {c : Char} {cs : List Char} {i : Nat} :
    occursAt pat (c :: cs) (i + 1) ↔ occursAt pat cs i := Iff.rfl

theorem findSub_none {pat s : List Char} (h : findSub pat s = none) :
    ∀ i, ¬ occursAt pat s i := by
  induction s with
  | nil =>
    intro i hi
    unfold occursAt at hi
    rw [List.drop_nil] at hi
    unfold findSub at h
    rw [hi] at h
    simp at h
  | cons c cs ih =>
    intro i hi
    unfold findSub at h
    by_cases hb : startsWith pat (c :: cs) = true
    · rw [if_pos hb] at h; simp at h
    · rw [if_neg hb] at h
      match i with
      | 0 => exact hb hi
      | i + 1 =>
        have hnone : findSub pat cs = none := by
          cases heq : findSub pat cs with
          | none => rfl
          | some k => rw [heq] at h; simp at h
        exact ih hnone i (occursAt_cons_succ.mp hi)

theorem findSub_some {pat s : List Char} {i : Nat} (h : findSub pat s = some i) :
    occursAt pat s i ∧ ∀ i' < i, ¬ occursAt pat s i' := by
  induction s generalizing i with
  | nil =>
    unfold findSub at h
    by_cases hb : startsWith pat [] = true
    · rw [if_pos hb] at h
      cases h
      refine ⟨?_, by omega⟩
      unfold occursAt
      rwa [List.drop_nil]
    · rw [if_neg hb] at h; simp at h
  | cons c cs ih =>
    unfold findSub at h
    by_cases hb : startsWith pat (c :: cs) = true
    · rw [if_pos hb] at h
      cases h
      exact ⟨hb, by omega⟩
    · rw [if_neg hb] at h
      cases heq : findSub pat cs with
      | none => rw [heq] at h; simp at h
      | some k =>
        rw [heq] at h
        simp only [Option.map_some'] at h
        cases h
        obtain ⟨hk, hmin⟩ := ih heq
        refine ⟨hk, ?_⟩
        intro i' hi' hocc
        match i' with
        | 0 => exact hb hocc
        | i' + 1 => exact hmin i' (by omega) (occursAt_cons_succ.mp hocc)

theorem findSub_eq_of {pat s : List Char} {i : Nat} (h1 : occursAt pat s i)
    (h2 : ∀ i' < i, ¬ occursAt pat s i') : findSub pat s = some i := by
  cases heq : findSub pat s with
  | none => exact absurd h1 (findSub_none heq i)
  | some k =>
    obtain ⟨hk, hmin⟩ := findSub_some heq
    rcases Nat.lt_trichotomy k i with hlt | hEq | hgt
    · exact absurd hk (h2 k hlt)
    · rw [hEq]
    · exact absurd h1 (hmin i hgt)

theorem findIdxChar_none {t : Char} {s : List Char} (h : findIdxChar t s = none) :
    ∀ i : Nat, s[i]? ≠ some t := by
  induction s with
  | nil => intro i; simp
  | cons c cs ih =>
    intro i
    unfold findIdxChar at h
    by_cases hb : c = t
    · rw [if_pos hb] at h; simp at h
    · rw [if_neg hb] at h
      have hnone : findIdxChar t cs = none := by
        cases heq : findIdxChar t cs with
        | none => rfl
        | some k => rw [heq] at h; simp at h
      match i with
      | 0 => simpa using hb
      | i + 1 => simpa using ih hnone i

theorem findIdxChar_some {t : Char} {s : List Char} {i : Nat}
    (h : findIdxChar t s = some i) :
    s[i]? = some t ∧ ∀ i' < i, s[i']? ≠ some t := by
  induction s generalizing i with
  | nil => simp [findIdxChar] at h
  | cons c cs ih =>
    unfold findIdxChar at h
    by_cases hb : c = t
    · rw [if_pos hb] at h
      cases h
      exact ⟨by simpa using hb, by omega⟩
    · rw [if_neg hb] at h
      cases heq : findIdxChar t cs with
      | none => rw [heq] at h; simp at h
      | some k =>
        rw [heq] at h
        simp only [Option.map_some'] at h
        cases h
        obtain ⟨hk, hmin⟩ := ih heq
        refine ⟨by simpa using hk, ?_⟩
        intro i' hi'
        match i' with
        | 0 => simpa using hb
        | i' + 1 => simpa using hmin i' (by omega)

theorem findIdxChar_eq_of {t : Char} {s : List Char} {i : Nat}
    (h1 : s[i]? = some t) (h2 : ∀ i' < i, s[i']? ≠ some t) :
    findIdxChar t s = some i := by
  cases heq : findIdxChar t s with
  | none => exact absurd h1 (findIdxChar_none heq i)
  | some k =>
    obtain ⟨hk, hmin⟩ := findIdxChar_some heq
    rcases Nat.lt_trichotomy k i with hlt | hEq | hgt
    · exact absurd hk (h2 k hlt)
    · rw [hEq]
    · exact absurd h1 (hmin i hgt)

theorem lastIdxChar_none {t : Char} {s : List Char} (h : lastIdxChar t s = none) :
    ∀ i : Nat, s[i]? ≠ some t := by
  induction s with
  | nil => intro i; simp
  | cons c cs ih =>
    intro i
    unfold lastIdxChar at h
    cases heq : lastIdxChar t cs with
    | some k => rw [heq] at h; simp at h
    | none =>
      rw [heq] at h
      by_cases hb : c = t
      · rw [if_pos hb] at h; simp at h
      · rw [if_neg hb] at h
        match i with
        | 0 => simpa using hb
        | i + 1 => simpa using ih heq i

theorem lastIdxChar_some {t : Char} {s : List Char} {j : Nat}
    (h : lastIdxChar t s = some j) :
    s[j]? = some t ∧ ∀ j', j < j' → s[j']? ≠ some t := by
  induction s generalizing j with
  | nil => simp [lastIdxChar] at h
  | cons c cs ih =>
    unfold lastIdxChar at h
    cases heq : lastIdxChar t cs with
    | some k =>
      rw [heq] at h
      cases h
      obtain ⟨hk, hmax⟩ := ih heq
      refine ⟨by simpa using hk, ?_⟩
      intro j' hj'
      match j' with
      | 0 => omega
      | j' + 1 => simpa using hmax j' (by omega)
    | none =>
      rw [heq] at h
      by_cases hb : c = t
      · rw [if_pos hb] at h
        cases h
        refine ⟨by simpa using hb, ?_⟩
        intro j' hj'
        match j' with
        | 0 => omega
        | j' + 1 => simpa using lastIdxChar_none heq j'
      · rw [if_neg hb] at h; simp at h

theorem lastIdxChar_eq_of {t : Char} {s : List Char} {j : Nat}
    (h1 : s[j]? = some t) (h2 : ∀ j', j < j' → s[j']? ≠ some t) :
    lastIdxChar t s = some j := by
  cases heq : lastIdxChar t s with
  | none => exact absurd h1 (lastIdxChar_none heq j)
  | some k =>
    obtain ⟨hk, hmax⟩ := lastIdxChar_some heq
    rcases Nat.lt_trichotomy k j with hlt | hEq | hgt
    · exact absurd h1 (hmax j hlt)
    · rw [hEq]
    · exact absurd hk (h2 k hgt)

theorem occursAt_drop {pat s : List Char} {k m : Nat} :
    occursAt pat (s.drop k) m ↔ occursAt pat s (k + m) := by
  unfold occursAt
  rw [List.drop_drop]

/-! ## Lemmas: stripping -/

theorem lstripBy_decomp (p : Char → Bool) (s : List Char) :
    ∃ pre, s = pre ++ lstripBy p s ∧ ∀ c ∈ pre, p c = true :=
  ⟨s.takeWhile p, (List.takeWhile_append_dropWhile p s).symm,
    fun _ hc => List.mem_takeWhile_imp hc⟩

theorem rstripBy_decomp (p : Char → Bool) (s : List Char) :
    ∃ post, s = rstripBy p s ++ post ∧ ∀ c ∈ post, p c = true := by
  refine ⟨(s.reverse.takeWhile p).reverse, ?_, ?_⟩
  · unfold rstripBy
    conv_lhs => rw [← s.reverse_reverse, ← List.takeWhile_append_dropWhile p s.reverse]
    rw [List.reverse_append]
  · intro c hc
    exact List.mem_takeWhile_imp (List.mem_reverse.mp hc)

theorem stripBy_decomp (p : Char → Bool) (s : List Char) :
    ∃ pre post, s = pre ++ stripBy p s ++ post ∧
      (∀ c ∈ pre, p c = true) ∧ (∀ c ∈ post, p c = true) := by
  obtain ⟨pre, h1, hp⟩ := lstripBy_decomp p s
  obtain ⟨post, h2, hq⟩ := rstripBy_decomp p (lstripBy p s)
  refine ⟨pre, post, ?_, hp, hq⟩
  show s = pre ++ rstripBy p (lstripBy p s) ++ post
  rw [List.append_assoc, ← h2, ← h1]

theorem lstripBy_no_op {p : Char → Bool} {c : Char} {t : List Char} (h : p c = false) :
    lstripBy p (c :: t) = c :: t := by
  unfold lstripBy
  rw [List.dropWhile_cons, h]
  simp

theorem rstripBy_concat_no_op {p : Char → Bool} {d : Char} {t : List Char}
    (h : p d = false) : rstripBy p (t ++ [d]) = t ++ [d] := by
  unfold rstripBy
  rw [List.reverse_append]
  simp only [List.reverse_cons, List.reverse_nil, List.nil_append, List.singleton_append]
  rw [List.dropWhile_cons, h]
  simp

theorem stripBy_no_op_of_ends {p : Char → Bool} {c d : Char} {mid : List Char}
    (hc : p c = false) (hd : p d = false) :
    stripBy p (c :: mid ++ [d]) = c :: mid ++ [d] := by
  unfold stripBy
  rw [show c :: mid ++ [d] = c :: (mid ++ [d]) from rfl, lstripBy_no_op hc,
    show c :: (mid ++ [d]) = (c :: mid) ++ [d] from rfl, rstripBy_concat_no_op hd]

theorem exists_cons_concat {s : List Char} {a b : Char} (h0 : s[0]? = some a)
    (hl : s[s.length - 1]? = some b) (hlen : 2 ≤ s.length) :
    ∃ mid, s = a :: mid ++ [b] := by
  match s with
  | [] => simp at h0
  | c :: t =>
    have hc : c = a := by simpa using h0
    rcases List.eq_nil_or_concat t with ht | ⟨mid, d, hd⟩
    · subst ht; simp at hlen
    · subst hd
      subst hc
      refine ⟨mid, ?_⟩
      have hidx : (c :: mid.concat d).length - 1 = mid.length + 1 := by
        simp [List.concat_eq_append]
      rw [hidx] at hl
      have : (c :: mid.concat d)[mid.length + 1]? = some d := by
        rw [List.getElem?_cons_succ, List.concat_eq_append]
        exact List.getElem?_concat_length mid d
      rw [this] at hl
      cases hl
      simp [List.concat_eq_append]

/-! ## Lemmas: the extraction regexes -/

theorem hasFencedBlock_iff {text : List Char} :
    hasFencedBlock text ↔
      ∃ i j, findSub fenceOpen text = some i ∧
        findSub fenceClose (text.drop (i + fenceOpen.length)) = some j := by
  constructor
  · rintro ⟨i, j, h1, h2, hij⟩
    cases heq : findSub fenceOpen text with
    | none => exact absurd h1 (findSub_none heq i)
    | some i0 =>
      obtain ⟨hi0, hmin⟩ := findSub_some heq
      have hle : i0 ≤ i := by
        by_contra hgt
        exact hmin i (by omega) h1
      have hocc : occursAt fenceClose (text.drop (i0 + fenceOpen.length))
          (j - (i0 + fenceOpen.length)) := by
        rw [occursAt_drop]
        have : i0 + fenceOpen.length + (j - (i0 + fenceOpen.length)) = j := by omega
        rwa [this]
      cases hc : findSub fenceClose (text.drop (i0 + fenceOpen.length)) with
      | none => exact absurd hocc (findSub_none hc _)
      | some j0 => exact ⟨i0, j0, rfl, hc⟩
  · rintro ⟨i, j, e1, e2⟩
    have h1 := (findSub_some e1).1
    have h2 := (findSub_some e2).1
    rw [occursAt_drop] at h2
    exact ⟨i, i + fenceOpen.length + j, h1, h2, by omega⟩

theorem extract_eq_braceFallback {text : List Char} (h : ¬ hasFencedBlock text) :
    extract_json_from_text text = braceFallback text := by
  cases heq : findSub fenceOpen text with
  | none => unfold extract_json_from_text; simp only [heq]
  | some i =>
    cases hc : findSub fenceClose (text.drop (i + fenceOpen.length)) with
    | none => unfold extract_json_from_text; simp only [heq, hc]
    | some j => exact absurd (hasFencedBlock_iff.mpr ⟨i, j, heq, hc⟩) h

theorem braceFallback_none_iff {text : List Char} :
    braceFallback text = none ↔ ¬ hasBracePair text := by
  constructor
  · intro h hpair
    obtain ⟨i, j, hij, hi, hj⟩ := hpair
    unfold braceFallback at h
    cases heqi : findIdxChar lbrace text with
    | none => exact findIdxChar_none heqi i hi
    | some i0 =>
      cases heqj : lastIdxChar rbrace text with
      | none => exact lastIdxChar_none heqj j hj
      | some j0 =>
        simp only [heqi, heqj] at h
        obtain ⟨_, hmin⟩ := findIdxChar_some heqi
        obtain ⟨_, hmax⟩ := lastIdxChar_some heqj
        have hi0 : i0 ≤ i := by
          by_contra hgt
          exact hmin i (by omega) hi
        have hj0 : j ≤ j0 := by
          by_contra hgt
          exact hmax j (by omega) hj
        rw [if_pos (by omega)] at h
        simp at h
  · intro h
    unfold braceFallback
    cases heqi : findIdxChar lbrace text with
    | none => rfl
    | some i0 =>
      cases heqj : lastIdxChar rbrace text with
      | none => rfl
      | some j0 =>
        obtain ⟨hi0, _⟩ := findIdxChar_some heqi
        obtain ⟨hj0, _⟩ := lastIdxChar_some heqj
        show (if i0 < j0 then some (pyStrip ((text.drop i0).take (j0 + 1 - i0)))
          else none) = none
        have hnlt : ¬ i0 < j0 := fun hlt => h ⟨i0, j0, hlt, hi0, hj0⟩
        rw [if_neg hnlt]

theorem isPySpace_lbrace : isPySpace lbrace = false := by decide

theorem isPySpace_rbrace : isPySpace rbrace = false := by decide

theorem braceFallback_eq_of {text : List Char} {i j : Nat}
    (hi : text[i]? = some lbrace) (himin : ∀ i' < i, text[i']? ≠ some lbrace)
    (hj : text[j]? = some rbrace)
    (hjmax : ∀ j' < text.length, j < j' → text[j']? ≠ some rbrace)
    (hij : i < j) :
    braceFallback text = some ((text.drop i).take (j + 1 - i)) := by
  have hjlen : j < text.length := by
    rcases List.getElem?_eq_some.mp hj with ⟨h, _⟩
    exact h
  have hjmax' : ∀ j', j < j' → text[j']? ≠ some rbrace := by
    intro j' hj'
    by_cases hcase : j' < text.length
    · exact hjmax j' hcase hj'
    · rw [List.getElem?_eq_none (by omega)]
      simp
  unfold braceFallback
  rw [findIdxChar_eq_of hi himin, lastIdxChar_eq_of hj hjmax']
  show (if i < j then some (pyStrip ((text.drop i).take (j + 1 - i))) else none) =
    some ((text.drop i).take (j + 1 - i))
  rw [if_pos hij]
  have hslice0 : ((text.drop i).take (j + 1 - i))[0]? = some lbrace := by
    rw [List.getElem?_take]
    rw [if_pos (by omega)]
    rw [List.getElem?_drop]
    simpa using hi
  have hslicelen : ((text.drop i).take (j + 1 - i)).length = j + 1 - i := by
    rw [List.length_take, List.length_drop]
    omega
  have hslicelast : ((text.drop i).take (j + 1 - i))[j - i]? = some rbrace := by
    rw [List.getElem?_take]
    rw [if_pos (by omega)]
    rw [List.getElem?_drop]
    have : i + (j - i) = j := by omega
    rwa [this]
  obtain ⟨mid, hmid⟩ := exists_cons_concat hslice0
    (by rw [hslicelen]; simpa [show j + 1 - i - 1 = j - i by omega] using hslicelast)
    (by omega)
  rw [hmid]
  unfold pyStrip
  rw [stripBy_no_op_of_ends isPySpace_lbrace isPySpace_rbrace]

/-- C1: `_extract_json_from_text` first looks for a fenced ```` ```json ````
block and returns its stripped contents (first block, up to the first
closing fence); with no fenced block it returns the substring of the text
from the first left brace to the last right brace inclusive, unchanged (so
no schema validation or repair of the returned string); and it returns
`none` exactly when neither a fenced block nor a left brace followed by a
right brace exists in the text. -/
theorem extract_json_from_text_spec (text : List Char) :
    (extract_json_from_text text = none ↔
      ¬ hasFencedBlock text ∧ ¬ hasBracePair text)
    ∧ (∀ i, occursAt fenceOpen text i → (∀ i' < i, ¬ occursAt fenceOpen text i') →
        ∀ j, occursAt fenceClose (text.drop (i + fenceOpen.length)) j →
          (∀ j' < j, ¬ occursAt fenceClose (text.drop (i + fenceOpen.length)) j') →
          extract_json_from_text text =
            some (pyStrip ((text.drop (i + fenceOpen.length)).take j)))
    ∧ (¬ hasFencedBlock text →
        ∀ i : Nat, text[i]? = some lbrace → (∀ i' < i, text[i']? ≠ some lbrace) →
        ∀ j : Nat, text[j]? = some rbrace →
          (∀ j' < text.length, j < j' → text[j']? ≠ some rbrace) →
          i < j →
          extract_json_from_text text = some ((text.drop i).take (j + 1 - i))) := by
  refine ⟨?_, ?_, ?_⟩
  · constructor
    · intro h
      have hnf : ¬ hasFencedBlock text := by
        intro hf
        obtain ⟨i, j, e1, e2⟩ := hasFencedBlock_iff.mp hf
        unfold extract_json_from_text at h
        simp only [e1, e2] at h
        exact Option.noConfusion h
      have hbf : braceFallback text = none := by
        rw [← extract_eq_braceFallback hnf]
        exact h
      exact ⟨hnf, braceFallback_none_iff.mp hbf⟩
    · rintro ⟨hnf, hnb⟩
      rw [extract_eq_braceFallback hnf]
      exact braceFallback_none_iff.mpr hnb
  · intro i h1 h2 j h3 h4
    have e1 := findSub_eq_of h1 h2
    have e2 := findSub_eq_of h3 h4
    unfold extract_json_from_text
    simp only [e1, e2]
  · intro hnf i hi himin j hj hjmax hij
    rw [extract_eq_braceFallback hnf]
    exact braceFallback_eq_of hi himin hj hjmax hij

/-- C1 witness: on a concrete fenced response the extraction returns the
stripped fenced contents. -/
theorem extract_json_from_text_spec_witness :
    extract_json_from_text sampleFencedText = some ("5".data) :=
  ((extract_json_from_text_spec sampleFencedText).2.1 0 (by decide) (by decide)
    2 (by decide) (by decide)).trans (by decide)

theorem append_decomp_trans {s t u a b c d : List Char}
    (h1 : s = a ++ t ++ b) (h2 : t = c ++ u ++ d) :
    s = (a ++ c) ++ u ++ (d ++ b) := by
  subst h1
  rw [h2]
  simp [List.append_assoc]

/-! ## Lemmas: stores -/

theorem assocLookup_update {β : Type} (store : List (String × β)) (k : String)
    (f : β → β) :
    assocLookup (assocUpdate store k f) k = (assocLookup store k).map f := by
  induction store with
  | nil => rfl
  | cons kv rest ih =>
    obtain ⟨k', v⟩ := kv
    by_cases hk : k' = k
    · subst hk
      have e1 : assocUpdate ((k', v) :: rest) k' f = (k', f v) :: assocUpdate rest k' f := by
        unfold assocUpdate
        simp
      rw [e1]
      show (if k' = k' then some (f v) else assocLookup (assocUpdate rest k' f) k') =
        (if k' = k' then some v else assocLookup rest k').map f
      rw [if_pos rfl, if_pos rfl]
      rfl
    · have e1 : assocUpdate ((k', v) :: rest) k f = (k', v) :: assocUpdate rest k f := by
        unfold assocUpdate
        simp only [List.map_cons]
        rw [if_neg hk]
      rw [e1]
      show (if k' = k then some v else assocLookup (assocUpdate rest k f) k) =
        (if k' = k then some v else assocLookup rest k).map f
      rw [if_neg hk, if_neg hk]
      exact ih

/-! ## Claim theorems -/

/-- C4: the hotel-result parsing steps are unimplemented stubs:
`_parse_search_results` returns an empty hotel list for every agent result,
and `_parse_booking_result` returns a failed `BookingResult` carrying the
hotel's `total_price` and the not-implemented message, with no booking id
or confirmation number; consequently `search_hotels` never yields a hotel
and `book_hotel` never succeeds. -/
theorem hotel_parsing_stubs_spec (ar : AgentResult) (hotel : HotelInfo)
    (r : BookingRequest) :
    parse_search_results ar r = [] ∧
    (parse_booking_result ar hotel r).success = false ∧
    (parse_booking_result ar hotel r).total_amount = hotel.total_price ∧
    (parse_booking_result ar hotel r).booking_id = none ∧
    (parse_booking_result ar hotel r).confirmation_number = none ∧
    (parse_booking_result ar hotel r).message = msgParseNotImplemented ∧
    (∀ (ares : Except String AgentResult) (hr : HotelRecommendations),
      search_hotels ares r = Except.ok hr → hr.hotels = []) ∧
    (∀ ares : Except String AgentResult, (book_hotel ares hotel r).success = false) := by
  refine ⟨rfl, rfl, rfl, rfl, rfl, rfl, ?_, ?_⟩
  · intro ares hr h
    cases ares with
    | error e => exact Except.noConfusion h
    | ok a =>
      simp only [search_hotels, Except.ok.injEq] at h
      rw [← h]
      rfl
  · intro ares
    cases ares with
    | error e => rfl
    | ok a => rfl

/-- C4 witness: booking through the stubbed parser on concrete data fails. -/
theorem hotel_parsing_stubs_spec_witness :
    (book_hotel (Except.ok sampleAgentResult) sampleHotel sampleBooking).success = false :=
  (hotel_parsing_stubs_spec sampleAgentResult sampleHotel sampleBooking).2.2.2.2.2.2.2
    (Except.ok sampleAgentResult)

/-- C6: `extract_multiple_products` creates one extraction task per URL,
keeps exactly the successful extractions (a swallowed per-URL failure is
filtered out, never aborting the call), and the result is the in-order
`filterMap` of the per-URL extraction over the URL list. -/
theorem extract_multiple_products_spec (extractOne : String → Option Product)
    (urls : List String) :
    extract_multiple_products extractOne urls = urls.filterMap extractOne ∧
    (urls.map extractOne).length = urls.length ∧
    (∀ p, p ∈ extract_multiple_products extractOne urls ↔
      ∃ url ∈ urls, extractOne url = some p) := by
  have h1 : extract_multiple_products extractOne urls = urls.filterMap extractOne := by
    unfold extract_multiple_products
    rw [List.filterMap_map]
    rfl
  refine ⟨h1, by simp, ?_⟩
  intro p
  rw [h1, List.mem_filterMap]

/-- C6 witness: with one succeeding and one failing URL, exactly the
successful product is returned. -/
theorem extract_multiple_products_spec_witness :
    extract_multiple_products sampleExtractOne sampleUrls = [sampleProduct] :=
  ((extract_multiple_products_spec sampleExtractOne sampleUrls).1).trans (by decide)

/-- C9: when the booking service call returns (rather than raising),
`execute_booking` marks the stored confirmation as confirmed regardless of
the `success` flag of the returned `BookingResult`: the flag records that
execution was attempted. -/
theorem execute_booking_marks_confirmed
    (book : HotelInfo → BookingRequest → Except String BookingResult)
    (store : ConfirmationStore) (cid : String) (conf : BookingConfirmation)
    (result : BookingResult)
    (h1 : assocLookup store cid = some conf)
    (h2 : book conf.hotel conf.booking_request = .ok result) :
    ∃ store', execute_booking book store cid = .ok (store', result) ∧
      assocLookup store' cid = some { conf with confirmed := true } := by
  refine ⟨assocUpdate store cid (fun c => { c with confirmed := true }), ?_, ?_⟩
  · unfold execute_booking
    simp only [h1, h2]
  · rw [assocLookup_update, h1]
    rfl

/-- C9 witness: a booking run returning `success = false` still flips the
stored confirmation's `confirmed` flag to `true`. -/
theorem execute_booking_marks_confirmed_witness :
    sampleFailedResult.success = false ∧
    ∃ store', execute_booking (fun _ _ => Except.ok sampleFailedResult)
        sampleConfStore "c1" = .ok (store', sampleFailedResult) ∧
      assocLookup store' "c1" = some { sampleConfirmation with confirmed := true } :=
  ⟨by decide,
    execute_booking_marks_confirmed (fun _ _ => Except.ok sampleFailedResult)
      sampleConfStore "c1" sampleConfirmation sampleFailedResult (by decide) rfl⟩

/-- C3: `BookingRequest` validation rejects `check_out ≤ check_in` with the
date validator's error, every request passing validation satisfies
`check_in < check_out`, and the start-search endpoint rejects such a
request with HTTP 400. -/
theorem booking_request_validation_spec :
    (∀ r : BookingRequest, r.check_out ≤ r.check_in →
      mkBookingRequest r = .error msgDatesInvalid) ∧
    (∀ r r' : BookingRequest, mkBookingRequest r = .ok r' →
      r'.check_in < r'.check_out) ∧
    (∀ (today now : Int) (taskId : String) (store : TaskStore) (r : BookingRequest),
      r.check_out ≤ r.check_in →
      ∃ m, start_search today now taskId store r = .error (400, m)) := by
  refine ⟨?_, ?_, ?_⟩
  · intro r h
    unfold mkBookingRequest
    rw [if_pos h]
  · intro r r' h
    unfold mkBookingRequest at h
    by_cases h1 : r.check_out ≤ r.check_in
    · rw [if_pos h1] at h
      exact Except.noConfusion h
    · rw [if_neg h1] at h
      split_ifs at h
      cases h
      omega
  · intro today now taskId store r h
    unfold start_search
    by_cases hc : r.check_in ≤ today
    · exact ⟨_, by rw [if_pos hc]⟩
    · exact ⟨msgDatesInvalid, by rw [if_neg hc, if_pos h]⟩

/-- C3 witness: a concrete request with `check_out = check_in` is rejected
by validation. -/
theorem booking_request_validation_spec_witness :
    sampleBookingBad.check_out ≤ sampleBookingBad.check_in ∧
    mkBookingRequest sampleBookingBad = .error msgDatesInvalid :=
  ⟨by decide, booking_request_validation_spec.1 sampleBookingBad (by decide)⟩

/-- C8: cancelling a stored search task sets its status to the string
"cancelled", which is outside the `SearchStatus` model's allowed literals;
the task remains in the store, and a subsequent status poll fails
validation (surfacing as a 500) instead of producing a `SearchStatus`. -/
theorem cancel_search_invalidates_status (store : TaskStore) (taskId : String)
    (t : TaskData) (h : assocLookup store taskId = some t) :
    searchStatusAllowed "cancelled" = false ∧
    ∃ store' m, cancel_search store taskId = .ok (store', m) ∧
      (∃ t', assocLookup store' taskId = some t' ∧ t'.status = "cancelled") ∧
      ∃ e, get_search_status store' taskId = .error (500, e) := by
  constructor
  · decide
  · refine ⟨assocUpdate store taskId
      (fun td => { td with status := "cancelled",
                           message := "Поиск отменен пользователем" }),
      "Поиск отменен", ?_, ?_, ?_⟩
    · unfold cancel_search
      simp only [h]
    · refine ⟨{ t with status := "cancelled",
                       message := "Поиск отменен пользователем" }, ?_, rfl⟩
      rw [assocLookup_update, h]
      rfl
    · unfold get_search_status
      rw [assocLookup_update, h]
      simp only [Option.map_some']
      exact ⟨_, rfl⟩

/-- C8 witness: cancelling a concrete stored task leaves it present with
status "cancelled" and makes the status poll fail validation. -/
theorem cancel_search_invalidates_status_witness :
    searchStatusAllowed "cancelled" = false ∧
    ∃ store' m, cancel_search sampleTaskStore "t1" = .ok (store', m) ∧
      (∃ t', assocLookup store' "t1" = some t' ∧ t'.status = "cancelled") ∧
      ∃ e, get_search_status store' "t1" = .error (500, e) :=
  cancel_search_invalidates_status sampleTaskStore "t1" (initTask sampleBooking 0)
    (by decide)

/-- C5: `evaluate_product_relevance` never propagates a failure: when no
JSON can be extracted it returns the zero score and the fixed error string;
when decoding or float conversion fails it returns the zero score and the
prefixed error string; on success it returns the parsed `relevance_score`
and `recommendation_reason`, defaulting to `0.0` and the empty string for
missing keys (a single LLM response is consumed; there is no retry). -/
theorem evaluate_product_relevance_spec (loads : List Char → Except String Json)
    (request : ProductRequest) (product : Product) (respContent : List Char) :
    (extract_json_from_text respContent = none →
      evaluate_product_relevance loads request product respContent =
        (0, Json.str msgNoEval)) ∧
    (∀ js e, extract_json_from_text respContent = some js → loads js = .error e →
      evaluate_product_relevance loads request product respContent =
        (0, Json.str (msgEvalErrPre ++ e))) ∧
    (∀ js fields q, extract_json_from_text respContent = some js →
      loads js = .ok (Json.obj fields) →
      floatOfJson ((assocLookup fields keyScore).getD (Json.num 0)) = .ok q →
      evaluate_product_relevance loads request product respContent =
        (q, (assocLookup fields keyReason).getD (Json.str ""))) ∧
    (∀ js fields e, extract_json_from_text respContent = some js →
      loads js = .ok (Json.obj fields) →
      floatOfJson ((assocLookup fields keyScore).getD (Json.num 0)) = .error e →
      evaluate_product_relevance loads request product respContent =
        (0, Json.str (msgEvalErrPre ++ e))) := by
  refine ⟨?_, ?_, ?_, ?_⟩
  · intro h
    unfold evaluate_product_relevance
    simp only [h]
  · intro js e hjs hl
    unfold evaluate_product_relevance
    simp only [hjs, hl]
  · intro js fields q hjs hl hf
    unfold evaluate_product_relevance
    simp only [hjs, hl, hf]
  · intro js fields e hjs hl hf
    unfold evaluate_product_relevance
    simp only [hjs, hl, hf]

/-- C5 witness: a response without any JSON yields the zero score and the
fixed error string. -/
theorem evaluate_product_relevance_spec_witness :
    evaluate_product_relevance (fun _ => Except.error "boom") sampleRequest
      sampleProduct sampleNoJsonText = (0, Json.str msgNoEval) :=
  (evaluate_product_relevance_spec (fun _ => Except.error "boom") sampleRequest
    sampleProduct sampleNoJsonText).1 (by decide)

/-- C2 counterexample: `max_results` is an unconstrained `int` and the
negative case is reachable; with `max_results = -1` and two evaluated
triples the fallback keeps all but the last sorted triple (Python
negative-slice semantics), not the length-`max_results` prefix the claim
describes (which for a non-positive count is empty). -/
theorem generate_recommendations_take_counterexample :
    (generate_recommendations (fun _ => none) sampleRequestNeg sampleEvaluated
        sampleNoJsonText).1.recommendations =
      [mkRecommendation (sampleProductB, 7, "лучше")] ∧
    (generate_recommendations (fun _ => none) sampleRequestNeg sampleEvaluated
        sampleNoJsonText).1.recommendations ≠
      ((List.insertionSort scoreGe sampleEvaluated).take
        sampleRequestNeg.max_results.toNat).map mkRecommendation := by
  constructor
  · decide
  · decide

/-- C2 (amended): when JSON extraction from the ranking response fails, or
decoding it fails, `generate_recommendations` returns the fallback: the
evaluated triples sorted by score in descending order and sliced with
Python's `[:max_results]` semantics — the first `max_results` triples when
`max_results ≥ 0`, and all but the last `|max_results|` (clamped at the
empty list) when `max_results` is negative — each mapped unchanged into a
`ProductRecommendation`, with `query_details` the request itself and an
empty `additional_questions` list. -/
theorem generate_recommendations_fallback_spec
    (parse : List Char → Option RecPayload) (request : ProductRequest)
    (evaluated : List EvalTriple) (respContent : List Char)
    (h : extract_json_from_text respContent = none ∨
      ∃ js, extract_json_from_text respContent = some js ∧ parse js = none) :
    ∃ sorted : List EvalTriple, sorted.Perm evaluated ∧
      List.Sorted scoreGe sorted ∧
      (generate_recommendations parse request evaluated respContent).1 =
        { recommendations :=
            (pySliceTo request.max_results sorted).map mkRecommendation,
          query_details := request,
          additional_questions := some [] } ∧
      (0 ≤ request.max_results →
        pySliceTo request.max_results sorted =
          sorted.take request.max_results.toNat) := by
  refine ⟨List.insertionSort scoreGe evaluated,
    List.perm_insertionSort scoreGe evaluated,
    List.sorted_insertionSort scoreGe evaluated, ?_, ?_⟩
  · rcases h with h | ⟨js, hjs, hp⟩
    · unfold generate_recommendations
      simp only [h]
      rfl
    · unfold generate_recommendations
      simp only [hjs, hp]
      rfl
  · intro hnn
    unfold pySliceTo
    rw [if_neg (by omega)]

/-- C2 witness: with a parse that always fails, the concrete evaluated list
is sorted descending and sliced to one recommendation. -/
theorem generate_recommendations_fallback_spec_witness :
    ∃ sorted : List EvalTriple, sorted.Perm sampleEvaluated ∧
      List.Sorted scoreGe sorted ∧
      (generate_recommendations (fun _ => none) sampleRequest sampleEvaluated
        sampleNoJsonText).1 =
        { recommendations :=
            (pySliceTo sampleRequest.max_results sorted).map mkRecommendation,
          query_details := sampleRequest,
          additional_questions := some [] } ∧
      (0 ≤ sampleRequest.max_results →
        pySliceTo sampleRequest.max_results sorted =
          sorted.take sampleRequest.max_results.toNat) :=
  generate_recommendations_fallback_spec (fun _ => none) sampleRequest
    sampleEvaluated sampleNoJsonText (Or.inl (by decide))

/-- C7: `generate_search_query` returns the LLM response content with
leading and trailing whitespace and quote characters stripped and applies
no other transformation: the returned query is a contiguous substring of
the response, and every removed character is whitespace, a double quote or
a single quote (a single LLM response is consumed; there is no retry). -/
theorem generate_search_query_spec (request : ProductRequest)
    (respContent : List Char) :
    ∃ pre post,
      respContent = pre ++ generate_search_query request respContent ++ post ∧
      (∀ c ∈ pre, isPySpace c = true ∨ c = dquote ∨ c = squote) ∧
      (∀ c ∈ post, isPySpace c = true ∨ c = dquote ∨ c = squote) := by
  obtain ⟨p1, q1, e1, hp1, hq1⟩ := stripBy_decomp isPySpace respContent
  obtain ⟨p2, q2, e2, hp2, hq2⟩ :=
    stripBy_decomp (· == dquote) (pyStrip respContent)
  obtain ⟨p3, q3, e3, hp3, hq3⟩ :=
    stripBy_decomp (· == squote) (stripBy (· == dquote) (pyStrip respContent))
  obtain ⟨p4, q4, e4, hp4, hq4⟩ :=
    stripBy_decomp isPySpace
      (stripBy (· == squote) (stripBy (· == dquote) (pyStrip respContent)))
  have E2 := append_decomp_trans e1 e2
  have E3 := append_decomp_trans E2 e3
  have E4 := append_decomp_trans E3 e4
  refine ⟨((p1 ++ p2) ++ p3) ++ p4, q4 ++ (q3 ++ (q2 ++ q1)), E4, ?_, ?_⟩
  · intro c hc
    simp only [List.mem_append] at hc
    rcases hc with ((h | h) | h) | h
    · exact Or.inl (hp1 c h)
    · exact Or.inr (Or.inl (eq_of_beq (hp2 c h)))
    · exact Or.inr (Or.inr (eq_of_beq (hp3 c h)))
    · exact Or.inl (hp4 c h)
  · intro c hc
    simp only [List.mem_append] at hc
    rcases hc with h | (h | (h | h))
    · exact Or.inl (hq4 c h)
    · exact Or.inr (Or.inr (eq_of_beq (hq3 c h)))
    · exact Or.inr (Or.inl (eq_of_beq (hq2 c h)))
    · exact Or.inl (hq1 c h)

/-- C7 witness: on a concrete quoted response the cleaned query is the
inner text and the removed characters are whitespace and quotes. -/
theorem generate_search_query_spec_witness :
    (∃ pre post,
      sampleQueryResp = pre ++ generate_search_query sampleRequest sampleQueryResp ++ post ∧
      (∀ c ∈ pre, isPySpace c = true ∨ c = dquote ∨ c = squote) ∧
      (∀ c ∈ post, isPySpace c = true ∨ c = dquote ∨ c = squote)) ∧
    generate_search_query sampleRequest sampleQueryResp = "query text".data :=
  ⟨generate_search_query_spec sampleRequest sampleQueryResp, by decide⟩

/-- C10: `_fallback_recommendations` sorts the caller's list in place: the
list state after the call is a permutation of the original in descending
score order, and any `generate_recommendations` call taking the fallback
path leaves the caller's list in exactly that state. -/
theorem fallback_sorts_in_place (request : ProductRequest)
    (evaluated : List EvalTriple) :
    ((fallback_recommendations request evaluated).2).Perm evaluated ∧
    List.Sorted scoreGe (fallback_recommendations request evaluated).2 ∧
    ∀ (parse : List Char → Option RecPayload) (respContent : List Char),
      (extract_json_from_text respContent = none ∨
        ∃ js, extract_json_from_text respContent = some js ∧ parse js = none) →
      (generate_recommendations parse request evaluated respContent).2 =
        (fallback_recommendations request evaluated).2 := by
  refine ⟨List.perm_insertionSort scoreGe evaluated,
    List.sorted_insertionSort scoreGe evaluated, ?_⟩
  intro parse respContent h
  rcases h with h | ⟨js, hjs, hp⟩
  · unfold generate_recommendations
    simp only [h]
  · unfold generate_recommendations
    simp only [hjs, hp]

/-- C10 witness: on the concrete evaluated list the fallback path leaves
the caller's list permuted into descending-score order. -/
theorem fallback_sorts_in_place_witness :
    (generate_recommendations (fun _ => none) sampleRequest sampleEvaluated
        sampleNoJsonText).2 =
      (fallback_recommendations sampleRequest sampleEvaluated).2 ∧
    (fallback_recommendations sampleRequest sampleEvaluated).2 =
      [(sampleProductB, 7, "лучше"), (sampleProduct, 3, "подходит")] :=
  ⟨(fallback_sorts_in_place sampleRequest sampleEvaluated).2.2 (fun _ => none)
      sampleNoJsonText (Or.inl (by decide)),
    by decide⟩

end Platilka
